import Mathlib

/-!
Verification of the TransMatrix translation-aware PDF reconstruction pipeline.

The definitions below are a shallow embedding of the Python sources
`transmatrix/models/document.py`, `transmatrix/translation/translator.py`,
`transmatrix/translation/document_translator.py` and
`transmatrix/reconstruction/pdf_rebuilder.py`.  Python floats are modelled as
rationals, the Python dicts produced by the `to_dict` methods as records whose
fields are exactly the dict keys (the `to_dict` methods always emit the same
key set, and the `from_dict` methods read exactly those keys, using `dict.get`
only for keys that `to_dict` always writes anyway), non-negative Python ints
(colors, flags, pixel sizes, row/column indices) as naturals, and Python
exceptions as `Except`.
-/

namespace TransMatrix

/-! ## Document model (`transmatrix/models/document.py`) -/

structure BBox where
  x0 : ℚ
  y0 : ℚ
  x1 : ℚ
  y1 : ℚ
deriving DecidableEq, Repr

def BBox.width (b : BBox) : ℚ := b.x1 - b.x0

def BBox.height (b : BBox) : ℚ := b.y1 - b.y0

def BBox.center (b : BBox) : ℚ × ℚ := ((b.x0 + b.x1) / 2, (b.y0 + b.y1) / 2)

/-- The dict written by `BBox.to_dict`: keys `x0`, `y0`, `x1`, `y1`. -/
structure BBoxD where
  x0 : ℚ
  y0 : ℚ
  x1 : ℚ
  y1 : ℚ
deriving DecidableEq, Repr

def BBox.to_dict (b : BBox) : BBoxD :=
  { x0 := b.x0, y0 := b.y0, x1 := b.x1, y1 := b.y1 }

def BBox.from_dict (d : BBoxD) : BBox :=
  { x0 := d.x0, y0 := d.y0, x1 := d.x1, y1 := d.y1 }

structure TextSpan where
  text : String
  bbox : BBox
  font : String
  size : ℚ
  color : Nat
  flags : Nat
  translated_text : Option String := none
deriving DecidableEq, Repr

/-- `SpanFlags.BOLD = 16`; `span.is_bold` tests `flags & SpanFlags.BOLD`. -/
def TextSpan.is_bold (s : TextSpan) : Bool := s.flags &&& 16 != 0

/-- `SpanFlags.ITALIC = 2`; `span.is_italic` tests `flags & SpanFlags.ITALIC`. -/
def TextSpan.is_italic (s : TextSpan) : Bool := s.flags &&& 2 != 0

/-- The dict written by `TextSpan.to_dict` (all seven fields, including
`translated_text`, are always written). -/
structure TextSpanD where
  text : String
  bbox : BBoxD
  font : String
  size : ℚ
  color : Nat
  flags : Nat
  translated_text : Option String
deriving DecidableEq, Repr

def TextSpan.to_dict (s : TextSpan) : TextSpanD :=
  { text := s.text, bbox := s.bbox.to_dict, font := s.font, size := s.size,
    color := s.color, flags := s.flags, translated_text := s.translated_text }

def TextSpan.from_dict (d : TextSpanD) : TextSpan :=
  { text := d.text, bbox := BBox.from_dict d.bbox, font := d.font,
    size := d.size, color := d.color, flags := d.flags,
    translated_text := d.translated_text }

structure TextLine where
  bbox : BBox
  spans : List TextSpan := []
deriving DecidableEq, Repr

/-- `line.text`: concatenation of the span texts. -/
def TextLine.text (l : TextLine) : String :=
  String.join (l.spans.map (fun s => s.text))

structure TextLineD where
  bbox : BBoxD
  spans : List TextSpanD
deriving DecidableEq, Repr

def TextLine.to_dict (l : TextLine) : TextLineD :=
  { bbox := l.bbox.to_dict, spans := l.spans.map TextSpan.to_dict }

def TextLine.from_dict (d : TextLineD) : TextLine :=
  { bbox := BBox.from_dict d.bbox, spans := d.spans.map TextSpan.from_dict }

structure TextBlock where
  bbox : BBox
  lines : List TextLine := []
deriving DecidableEq, Repr

structure TextBlockD where
  bbox : BBoxD
  lines : List TextLineD
deriving DecidableEq, Repr

def TextBlock.to_dict (b : TextBlock) : TextBlockD :=
  { bbox := b.bbox.to_dict, lines := b.lines.map TextLine.to_dict }

def TextBlock.from_dict (d : TextBlockD) : TextBlock :=
  { bbox := BBox.from_dict d.bbox, lines := d.lines.map TextLine.from_dict }

/-- `image_data` holds raw bytes (modelled as a list of byte values). -/
structure ImageBlock where
  bbox : BBox
  width : Nat
  height : Nat
  image_data : Option (List Nat) := none
  ocr_text : Option String := none
deriving DecidableEq, Repr

/-- The dict written by `ImageBlock.to_dict`: note that `image_data` is NOT
among its keys (the source writes only `bbox`, `width`, `height`, `ocr_text`). -/
structure ImageBlockD where
  bbox : BBoxD
  width : Nat
  height : Nat
  ocr_text : Option String
deriving DecidableEq, Repr

def ImageBlock.to_dict (b : ImageBlock) : ImageBlockD :=
  { bbox := b.bbox.to_dict, width := b.width, height := b.height,
    ocr_text := b.ocr_text }

def ImageBlock.from_dict (d : ImageBlockD) : ImageBlock :=
  { bbox := BBox.from_dict d.bbox, width := d.width, height := d.height,
    image_data := none, ocr_text := d.ocr_text }

structure TableCell where
  bbox : BBox
  text : String
  row : Nat
  col : Nat
  rowspan : Nat := 1
  colspan : Nat := 1
  translated_text : Option String := none
deriving DecidableEq, Repr

structure TableCellD where
  bbox : BBoxD
  text : String
  row : Nat
  col : Nat
  rowspan : Nat
  colspan : Nat
  translated_text : Option String
deriving DecidableEq, Repr

def TableCell.to_dict (c : TableCell) : TableCellD :=
  { bbox := c.bbox.to_dict, text := c.text, row := c.row, col := c.col,
    rowspan := c.rowspan, colspan := c.colspan,
    translated_text := c.translated_text }

def TableCell.from_dict (d : TableCellD) : TableCell :=
  { bbox := BBox.from_dict d.bbox, text := d.text, row := d.row, col := d.col,
    rowspan := d.rowspan, colspan := d.colspan,
    translated_text := d.translated_text }

structure Table where
  bbox : BBox
  rows : Nat
  cols : Nat
  cells : List TableCell := []
deriving DecidableEq, Repr

structure TableD where
  bbox : BBoxD
  rows : Nat
  cols : Nat
  cells : List TableCellD
deriving DecidableEq, Repr

def Table.to_dict (t : Table) : TableD :=
  { bbox := t.bbox.to_dict, rows := t.rows, cols := t.cols,
    cells := t.cells.map TableCell.to_dict }

def Table.from_dict (d : TableD) : Table :=
  { bbox := BBox.from_dict d.bbox, rows := d.rows, cols := d.cols,
    cells := d.cells.map TableCell.from_dict }

/-- `Table.get_cell`: first cell whose `row`/`col` match, else `None`. -/
def Table.get_cell (t : Table) (row col : Nat) : Option TableCell :=
  t.cells.find? (fun c => c.row = row ∧ c.col = col)

/-- `Table.to_matrix`: start from a `rows × cols` matrix of `""` and assign
`matrix[cell.row][cell.col] = cell.text` for every in-range cell, in list
order (so a later duplicate overwrites an earlier one, as in Python). -/
def Table.to_matrix (t : Table) : List (List String) :=
  t.cells.foldl
    (fun m c =>
      if c.row < t.rows ∧ c.col < t.cols then
        m.set c.row ((m.getD c.row []).set c.col c.text)
      else m)
    (List.replicate t.rows (List.replicate t.cols ""))

structure Page where
  page_number : Nat
  width : ℚ
  height : ℚ
  text_blocks : List TextBlock := []
  image_blocks : List ImageBlock := []
  tables : List Table := []
deriving DecidableEq, Repr

structure PageD where
  page_number : Nat
  width : ℚ
  height : ℚ
  text_blocks : List TextBlockD
  image_blocks : List ImageBlockD
  tables : List TableD
deriving DecidableEq, Repr

def Page.to_dict (p : Page) : PageD :=
  { page_number := p.page_number, width := p.width, height := p.height,
    text_blocks := p.text_blocks.map TextBlock.to_dict,
    image_blocks := p.image_blocks.map ImageBlock.to_dict,
    tables := p.tables.map Table.to_dict }

def Page.from_dict (d : PageD) : Page :=
  { page_number := d.page_number, width := d.width, height := d.height,
    text_blocks := d.text_blocks.map TextBlock.from_dict,
    image_blocks := d.image_blocks.map ImageBlock.from_dict,
    tables := d.tables.map Table.from_dict }

structure Document where
  filename : String
  pages : List Page := []
  source_lang : Option String := none
  target_lang : Option String := none
deriving DecidableEq, Repr

def Document.page_count (d : Document) : Nat := d.pages.length

def Document.total_text_blocks (d : Document) : Nat :=
  (d.pages.map (fun p => p.text_blocks.length)).sum

def Document.total_image_blocks (d : Document) : Nat :=
  (d.pages.map (fun p => p.image_blocks.length)).sum

def Document.total_tables (d : Document) : Nat :=
  (d.pages.map (fun p => p.tables.length)).sum

/-- The dict written by `Document.to_dict`, including the derived counts
(which `Document.from_dict` ignores). -/
structure DocumentD where
  filename : String
  source_lang : Option String
  target_lang : Option String
  page_count : Nat
  total_text_blocks : Nat
  total_image_blocks : Nat
  total_tables : Nat
  pages : List PageD
deriving DecidableEq, Repr

def Document.to_dict (d : Document) : DocumentD :=
  { filename := d.filename, source_lang := d.source_lang,
    target_lang := d.target_lang, page_count := d.page_count,
    total_text_blocks := d.total_text_blocks,
    total_image_blocks := d.total_image_blocks,
    total_tables := d.total_tables,
    pages := d.pages.map Page.to_dict }

def Document.from_dict (d : DocumentD) : Document :=
  { filename := d.filename, source_lang := d.source_lang,
    target_lang := d.target_lang,
    pages := d.pages.map Page.from_dict }

/-! ### Round-trip helpers

`scrub*` drops the one field the serialization loses: every image block's
`image_data` becomes `none`; everything else is kept unchanged. -/

def scrubImageBlock (b : ImageBlock) : ImageBlock := { b with image_data := none }

def scrubPage (p : Page) : Page :=
  { p with image_blocks := p.image_blocks.map scrubImageBlock }

def scrubDocument (d : Document) : Document :=
  { d with pages := d.pages.map scrubPage }

theorem bbox_roundtrip (b : BBox) : BBox.from_dict (BBox.to_dict b) = b := rfl

theorem textSpan_roundtrip (s : TextSpan) :
    TextSpan.from_dict (TextSpan.to_dict s) = s := rfl

theorem textLine_roundtrip (l : TextLine) :
    TextLine.from_dict (TextLine.to_dict l) = l := by
  cases l with
  | mk bbox spans =>
    simp [TextLine.from_dict, TextLine.to_dict, List.map_map,
      Function.comp_def, textSpan_roundtrip, bbox_roundtrip]

theorem textBlock_roundtrip (b : TextBlock) :
    TextBlock.from_dict (TextBlock.to_dict b) = b := by
  cases b with
  | mk bbox lines =>
    simp [TextBlock.from_dict, TextBlock.to_dict, List.map_map,
      Function.comp_def, textLine_roundtrip, bbox_roundtrip]

theorem imageBlock_roundtrip (b : ImageBlock) :
    ImageBlock.from_dict (ImageBlock.to_dict b) = scrubImageBlock b := rfl

theorem tableCell_roundtrip (c : TableCell) :
    TableCell.from_dict (TableCell.to_dict c) = c := rfl

theorem table_roundtrip (t : Table) :
    Table.from_dict (Table.to_dict t) = t := by
  cases t with
  | mk bbox rows cols cells =>
    simp [Table.from_dict, Table.to_dict, List.map_map,
      Function.comp_def, tableCell_roundtrip, bbox_roundtrip]

theorem page_roundtrip (p : Page) :
    Page.from_dict (Page.to_dict p) = scrubPage p := by
  cases p with
  | mk n w h tb ib tbl =>
    simp [Page.from_dict, Page.to_dict, scrubPage, List.map_map,
      Function.comp_def, textBlock_roundtrip, imageBlock_roundtrip,
      table_roundtrip]

theorem document_roundtrip_scrub (d : Document) :
    Document.from_dict (Document.to_dict d) = scrubDocument d := by
  cases d with
  | mk fn pages sl tl =>
    simp [Document.from_dict, Document.to_dict, scrubDocument, List.map_map,
      Function.comp_def, page_roundtrip]

theorem map_id_of_mem {α : Type} {f : α → α} :
    ∀ {l : List α}, (∀ a ∈ l, f a = a) → l.map f = l
  | [], _ => rfl
  | a :: l, h => by
    simp only [List.map_cons, h a (List.mem_cons_self a l)]
    rw [map_id_of_mem (fun b hb => h b (List.mem_cons_of_mem a hb))]

theorem scrubPage_eq_self {p : Page}
    (h : ∀ b ∈ p.image_blocks, b.image_data = none) : scrubPage p = p := by
  cases p with
  | mk n w hh tb ib tbl =>
    simp only [scrubPage]
    congr 1
    exact map_id_of_mem (fun b hb => by
      have := h b hb
      simp [scrubImageBlock]
      cases b
      simp_all)

/-- Concrete document whose single image block carries raw bytes. -/
def imgDoc : Document :=
  { filename := "f",
    pages := [{ page_number := 1, width := 10, height := 10,
                image_blocks := [{ bbox := ⟨0, 0, 1, 1⟩, width := 1,
                                   height := 1, image_data := some [1] }] }] }

/-- **C2** (amended): `Document.from_dict (Document.to_dict d) = d` holds for
every document all of whose image blocks have `image_data = None` (in
particular for empty page lists, empty block/image/table lists and unset
optional fields); in general the round trip loses exactly `image_data`. -/
theorem document_roundtrip (d : Document)
    (h : ∀ p ∈ d.pages, ∀ b ∈ p.image_blocks, b.image_data = none) :
    Document.from_dict (Document.to_dict d) = d := by
  rw [document_roundtrip_scrub]
  cases d with
  | mk fn pages sl tl =>
    simp only [scrubDocument]
    congr 1
    exact map_id_of_mem (fun p hp => scrubPage_eq_self (h p hp))

/-- **C2** (counterexample): on a document whose image block holds bytes, the
serialize/deserialize round trip is not the identity (`ImageBlock.to_dict`
drops `image_data`). -/
theorem document_roundtrip_counterexample :
    Document.from_dict (Document.to_dict imgDoc) ≠ imgDoc := by decide

/-- **C2** (witness): the round trip is the identity on a concrete document
with an empty page list and unset optional fields. -/
theorem document_roundtrip_witness :
    Document.from_dict (Document.to_dict { filename := "doc" }) =
      { filename := "doc" } :=
  document_roundtrip { filename := "doc" } (by decide)

/-- **C10**: serializing then deserializing drops `image_data` to `None` and
preserves everything else: on an `ImageBlock` the round trip is exactly
`image_data := none` (keeping `bbox`, `width`, `height`, `ocr_text`), and on a
whole `Document` it equals `scrubDocument`, which maps every image block to
that scrubbed form and leaves every other field unchanged. -/
theorem imageBlock_roundtrip_drops_image_data :
    (∀ b : ImageBlock,
       ImageBlock.from_dict (ImageBlock.to_dict b) = { b with image_data := none }) ∧
    (∀ d : Document,
       Document.from_dict (Document.to_dict d) = scrubDocument d) :=
  ⟨fun _ => rfl, document_roundtrip_scrub⟩

/-! ### `Table.to_matrix` (claim C9) -/

/-- Entry `(i, j)` of a list-of-lists matrix, defaulting to `""`. -/
def matrixEntry (m : List (List String)) (i j : Nat) : String :=
  (m.getD i []).getD j ""

theorem getD_set_eq {α : Type} :
    ∀ (l : List α) (i : Nat) (a d : α), i < l.length →
      (l.set i a).getD i d = a
  | _ :: _, 0, _, _, _ => rfl
  | _ :: l, i + 1, a, d, h =>
    getD_set_eq l i a d (Nat.lt_of_succ_lt_succ h)

theorem getD_set_ne {α : Type} :
    ∀ (l : List α) (i j : Nat) (a d : α), i ≠ j →
      (l.set i a).getD j d = l.getD j d
  | [], _, _, _, _, _ => rfl
  | _ :: _, 0, 0, _, _, h => absurd rfl h
  | _ :: _, 0, _ + 1, _, _, _ => rfl
  | _ :: _, _ + 1, 0, _, _, _ => rfl
  | _ :: l, i + 1, j + 1, a, d, h =>
    getD_set_ne l i j a d (fun e => h (congrArg Nat.succ e))

theorem getD_mem {α : Type} :
    ∀ (l : List α) (i : Nat) (d : α), i < l.length → l.getD i d ∈ l
  | a :: _, 0, _, _ => List.mem_cons_self a _
  | _ :: l, i + 1, d, h =>
    List.mem_cons_of_mem _ (getD_mem l i d (Nat.lt_of_succ_lt_succ h))

theorem getD_replicate {α : Type} :
    ∀ (n i : Nat) (a d : α), i < n → (List.replicate n a).getD i d = a
  | _ + 1, 0, _, _, _ => rfl
  | n + 1, i + 1, a, d, h =>
    getD_replicate n i a d (Nat.lt_of_succ_lt_succ h)

/-- One `to_matrix` assignment step keeps the matrix `rows × cols`. -/
theorem toMatrix_step_shape (rows cols : Nat) (m : List (List String))
    (c : TableCell) (h1 : m.length = rows) (h2 : ∀ r ∈ m, r.length = cols) :
    (if c.row < rows ∧ c.col < cols then
        m.set c.row ((m.getD c.row []).set c.col c.text)
      else m).length = rows ∧
    ∀ r ∈ (if c.row < rows ∧ c.col < cols then
        m.set c.row ((m.getD c.row []).set c.col c.text)
      else m), r.length = cols := by
  by_cases hc : c.row < rows ∧ c.col < cols
  · rw [if_pos hc]
    refine ⟨by rw [List.length_set]; exact h1, fun r hr => ?_⟩
    rcases List.mem_or_eq_of_mem_set hr with hr' | hr'
    · exact h2 r hr'
    · subst hr'
      rw [List.length_set]
      exact h2 _ (getD_mem m c.row [] (h1 ▸ hc.1))
  · rw [if_neg hc]
    exact ⟨h1, h2⟩

theorem toMatrix_fold_shape {rows cols : Nat} :
    ∀ (cells : List TableCell) (m : List (List String)),
      m.length = rows → (∀ r ∈ m, r.length = cols) →
      (cells.foldl
        (fun m c =>
          if c.row < rows ∧ c.col < cols then
            m.set c.row ((m.getD c.row []).set c.col c.text)
          else m) m).length = rows ∧
      ∀ r ∈ (cells.foldl
        (fun m c =>
          if c.row < rows ∧ c.col < cols then
            m.set c.row ((m.getD c.row []).set c.col c.text)
          else m) m), r.length = cols
  | [], m, h1, h2 => ⟨h1, h2⟩
  | c :: cs, m, h1, h2 => by
    have hs := toMatrix_step_shape rows cols m c h1 h2
    exact toMatrix_fold_shape cs _ hs.1 hs.2

/-- Entry `(i, j)` after folding the assignments is the text of the last cell
of the list targeting `(i, j)`, or the starting entry if none does. -/
theorem toMatrix_fold_entry {rows cols : Nat} :
    ∀ (cells : List TableCell) (m : List (List String)),
      m.length = rows → (∀ r ∈ m, r.length = cols) →
      ∀ i j, i < rows → j < cols →
      matrixEntry
        (cells.foldl
          (fun m c =>
            if c.row < rows ∧ c.col < cols then
              m.set c.row ((m.getD c.row []).set c.col c.text)
            else m) m) i j =
      (cells.filter (fun x => decide (x.row = i ∧ x.col = j))).foldl
        (fun _ c => c.text) (matrixEntry m i j)
  | [], m, _, _, i, j, _, _ => rfl
  | c :: cs, m, h1, h2, i, j, hi, hj => by
    have hs := toMatrix_step_shape rows cols m c h1 h2
    have ih := toMatrix_fold_entry cs _ hs.1 hs.2 i j hi hj
    rw [List.foldl_cons, ih]
    by_cases hx : c.row = i ∧ c.col = j
    · have hc : c.row < rows ∧ c.col < cols := ⟨hx.1 ▸ hi, hx.2 ▸ hj⟩
      have hfil : (c :: cs).filter (fun x => decide (x.row = i ∧ x.col = j)) =
          c :: cs.filter (fun x => decide (x.row = i ∧ x.col = j)) := by
        simp [List.filter_cons, hx]
      have hentry :
          matrixEntry
            (if c.row < rows ∧ c.col < cols then
              m.set c.row ((m.getD c.row []).set c.col c.text)
            else m) i j = c.text := by
        rw [if_pos hc]
        unfold matrixEntry
        rw [hx.1, hx.2, getD_set_eq _ _ _ _ (h1 ▸ hx.1 ▸ hi)]
        rw [getD_set_eq _ _ _ _ ?_]
        rw [h2 _ (getD_mem m i [] (h1 ▸ hi))]
        exact hj
      rw [hentry, hfil, List.foldl_cons]
    · have hfil : (c :: cs).filter (fun x => decide (x.row = i ∧ x.col = j)) =
          cs.filter (fun x => decide (x.row = i ∧ x.col = j)) := by
        simp [List.filter_cons, hx]
      have hentry :
          matrixEntry
            (if c.row < rows ∧ c.col < cols then
              m.set c.row ((m.getD c.row []).set c.col c.text)
            else m) i j = matrixEntry m i j := by
        by_cases hc : c.row < rows ∧ c.col < cols
        · rw [if_pos hc]
          unfold matrixEntry
          by_cases hrow : c.row = i
          · have hcol : c.col ≠ j := fun e => hx ⟨hrow, e⟩
            rw [hrow, getD_set_eq _ _ _ _ (h1 ▸ hi),
              getD_set_ne _ _ _ _ _ hcol]
          · rw [getD_set_ne _ _ _ _ _ hrow]
        · rw [if_neg hc]
      rw [hentry, hfil]

/-- In a list of cells with pairwise distinct `(row, col)`, filtering for the
position of a member `c` yields exactly `[c]`. -/
theorem filter_pos_eq_singleton :
    ∀ {l : List TableCell} {c : TableCell}, c ∈ l →
      l.Pairwise (fun a b => a.row ≠ b.row ∨ a.col ≠ b.col) →
      l.filter (fun x => decide (x.row = c.row ∧ x.col = c.col)) = [c]
  | a :: l', c, hmem, hp => by
    rw [List.pairwise_cons] at hp
    rcases List.mem_cons.mp hmem with rfl | hc
    · have hfil : (c :: l').filter
          (fun x => decide (x.row = c.row ∧ x.col = c.col)) =
          c :: l'.filter (fun x => decide (x.row = c.row ∧ x.col = c.col)) := by
        simp [List.filter_cons]
      rw [hfil, List.filter_eq_nil_iff.mpr]
      intro b hb
      simp only [decide_eq_true_eq]
      rcases hp.1 b hb with h | h
      · exact fun e => absurd e.1.symm h
      · exact fun e => absurd e.2.symm h
    · have ha : ¬(a.row = c.row ∧ a.col = c.col) := by
        rcases hp.1 c hc with h | h
        · exact fun e => h e.1
        · exact fun e => h e.2
      have hfil : (a :: l').filter
          (fun x => decide (x.row = c.row ∧ x.col = c.col)) =
          l'.filter (fun x => decide (x.row = c.row ∧ x.col = c.col)) := by
        simp [List.filter_cons, ha]
      rw [hfil]
      exact filter_pos_eq_singleton hc hp.2

/-- **C9**: for a table whose cells occupy pairwise distinct `(row, col)`
positions, `to_matrix` is the `rows × cols` dense projection: entry `(i, j)`
is the text of the cell at `(i, j)` when one exists, and `""` at every
unoccupied position (out-of-range cells are ignored by construction). -/
theorem table_to_matrix_projection (t : Table)
    (hnd : t.cells.Pairwise (fun a b => a.row ≠ b.row ∨ a.col ≠ b.col)) :
    (t.to_matrix.length = t.rows ∧ ∀ r ∈ t.to_matrix, r.length = t.cols) ∧
    (∀ c ∈ t.cells, c.row < t.rows → c.col < t.cols →
       matrixEntry t.to_matrix c.row c.col = c.text) ∧
    (∀ i j, i < t.rows → j < t.cols →
       (∀ c ∈ t.cells, ¬(c.row = i ∧ c.col = j)) →
       matrixEntry t.to_matrix i j = "") := by
  have hbase1 : (List.replicate t.rows (List.replicate t.cols "")).length = t.rows :=
    List.length_replicate t.rows _
  have hbase2 : ∀ r ∈ List.replicate t.rows (List.replicate t.cols ""),
      r.length = t.cols := by
    intro r hr
    rw [List.eq_of_mem_replicate hr]
    exact List.length_replicate t.cols _
  refine ⟨toMatrix_fold_shape t.cells _ hbase1 hbase2, ?_, ?_⟩
  · intro c hc hr hcol
    unfold Table.to_matrix
    rw [toMatrix_fold_entry t.cells _ hbase1 hbase2 c.row c.col hr hcol]
    rw [filter_pos_eq_singleton hc hnd]
    rfl
  · intro i j hi hj hempty
    unfold Table.to_matrix
    rw [toMatrix_fold_entry t.cells _ hbase1 hbase2 i j hi hj]
    rw [List.filter_eq_nil_iff.mpr (fun c hc => by
      simpa using hempty c hc)]
    unfold matrixEntry
    rw [getD_replicate _ _ _ _ hi, getD_replicate _ _ _ _ hj]
    rfl

/-- Concrete table: `rows = 2`, `cols = 2`, only cell `(0, 0)` populated. -/
def demoTable : Table :=
  { bbox := ⟨0, 0, 10, 10⟩, rows := 2, cols := 2,
    cells := [{ bbox := ⟨0, 0, 5, 5⟩, text := "A", row := 0, col := 0 }] }

/-- **C9** (witness): the demo table projects to `[["A", ""], ["", ""]]`, and
the populated entry is obtained from `table_to_matrix_projection`. -/
theorem table_to_matrix_projection_witness :
    demoTable.to_matrix = [["A", ""], ["", ""]] ∧
    matrixEntry demoTable.to_matrix 0 0 = "A" ∧
    matrixEntry demoTable.to_matrix 1 1 = "" :=
  ⟨by decide,
   (table_to_matrix_projection demoTable (by decide)).2.1
     { bbox := ⟨0, 0, 5, 5⟩, text := "A", row := 0, col := 0 }
     (by decide) (by decide) (by decide),
   (table_to_matrix_projection demoTable (by decide)).2.2 1 1
     (by decide) (by decide) (by decide)⟩

/-! ## Pattern guard (`NLLBTranslator._protect_patterns` / `_restore_patterns`)

Python strings handled by the translator are modelled as `List Char`
(`PyStr`), so that `len`, slicing and scanning are structural.  The character
classes are the ASCII readings of the regex classes (`\d` = `0`-`9`,
`[A-Z]` literal, `\w` = alphanumeric or `_`); the texts exercised by the spec
contain no non-ASCII word characters, so this agrees with Python on them. -/

abbrev PyStr := List Char

/-- The whitespace characters stripped by Python `str.strip()` (ASCII). -/
def isPySpace (c : Char) : Bool :=
  c = ' ' ∨ c = '\t' ∨ c = '\n' ∨ c = '\r' ∨ c = '\x0b' ∨ c = '\x0c'

/-- Pythonic blankness: `not (t and t.strip())`, i.e. empty or all-whitespace. -/
def isBlank (s : PyStr) : Bool := s.all isPySpace

/-- `s.replace(old, new, 1)`: replace the first occurrence of `old` (found by
value, scanning left to right), or return `s` unchanged if there is none. -/
def replaceFirst (old new : PyStr) : PyStr → PyStr
  | [] => if old = [] then new else []
  | c :: rest =>
    if old.isPrefixOf (c :: rest) then new ++ (c :: rest).drop old.length
    else c :: replaceFirst old new rest

/-- Worker for `replaceAll`; the fuel bounds the string length, and each
recursive call consumes at least one character (the mappings fed to
`replaceAll` have nonempty keys, the generated placeholders). -/
def replaceAllAux (old new : PyStr) : Nat → PyStr → PyStr
  | _, [] => if old = [] then new else []
  | 0, s => s
  | fuel + 1, c :: rest =>
    if old ≠ [] ∧ old.isPrefixOf (c :: rest) then
      new ++ replaceAllAux old new fuel ((c :: rest).drop old.length)
    else c :: replaceAllAux old new fuel rest

/-- `s.replace(old, new)` for nonempty `old`: replace every (non-overlapping,
left-to-right) occurrence of `old`; inserted text is not rescanned. -/
def replaceAll (old new : PyStr) (s : PyStr) : PyStr :=
  replaceAllAux old new s.length s

/-- `[A-Z]` (the literal character class of the configured patterns). -/
def isUpperAZ (c : Char) : Bool := 'A' ≤ c ∧ c ≤ 'Z'

/-- `\w` (ASCII reading): letters, digits, underscore. -/
def isWordChar (c : Char) : Bool := c.isAlphanum ∨ c = '_'

/-- A matcher attempts one regex match anchored at the current position; it
receives the previous character (for `\b`) and returns the matched text and
the remaining suffix.  Matches of the configured patterns are never empty. -/
abbrev Matcher := Option Char → PyStr → Option (PyStr × PyStr)

/-- `\d+[.,]\d+` — greedy digits, one separator, greedy digits (backtracking
cannot help this pattern, since `[.,]` never matches a digit). -/
def matchDecimal : Matcher := fun _ s =>
  let d1 := s.takeWhile Char.isDigit
  let r1 := s.dropWhile Char.isDigit
  if d1 = [] then none
  else
    match r1 with
    | sep :: r2 =>
      if sep = '.' ∨ sep = ',' then
        let d2 := r2.takeWhile Char.isDigit
        let r3 := r2.dropWhile Char.isDigit
        if d2 = [] then none else some (d1 ++ sep :: d2, r3)
      else none
    | [] => none

/-- `\d+` — a maximal digit run. -/
def matchInt : Matcher := fun _ s =>
  let d := s.takeWhile Char.isDigit
  if d = [] then none else some (d, s.dropWhile Char.isDigit)

/-- `m²|m2|km|cm|mm` — alternatives tried left to right. -/
def matchUnit : Matcher := fun _ s =>
  [('m' :: '²' :: []), ('m' :: '2' :: []), ('k' :: 'm' :: []),
   ('c' :: 'm' :: []), ('m' :: 'm' :: [])].findSome?
    (fun lit => if lit.isPrefixOf s then some (lit, s.drop lit.length) else none)

/-- `€|\$|£`. -/
def matchCurrency : Matcher := fun _ s =>
  match s with
  | c :: rest => if c = '€' ∨ c = '$' ∨ c = '£' then some ([c], rest) else none
  | [] => none

/-- `[A-Z]{2,}` — a maximal run of at least two uppercase letters. -/
def matchAcronym : Matcher := fun _ s =>
  let u := s.takeWhile isUpperAZ
  if 2 ≤ u.length then some (u, s.dropWhile isUpperAZ) else none

/-- `\b` holds before the current position: start of string or a previous
non-word character (the character at the position is a word character for
every use below). -/
def boundaryBefore : Option Char → Bool
  | none => true
  | some p => !isWordChar p

/-- `\b` holds after a word character at the end of a match: end of string or
a following non-word character. -/
def boundaryAfter : PyStr → Bool
  | [] => true
  | c :: _ => !isWordChar c

/-- `\b[A-Z]\d+\b` — word boundary, one uppercase letter, a maximal digit run,
word boundary (backtracking the `\d+` cannot create the trailing boundary). -/
def matchCode : Matcher := fun prev s =>
  match s with
  | c :: rest =>
    if isUpperAZ c && boundaryBefore prev then
      let ds := rest.takeWhile Char.isDigit
      let r := rest.dropWhile Char.isDigit
      if !ds.isEmpty && boundaryAfter r then some (c :: ds, r)
      else none
    else none
  | [] => none

/-- `re.finditer`: non-overlapping leftmost matches; on failure advance one
character, on success continue after the match.  The fuel equals the string
length, which each step consumes at least one character of. -/
def scanAux (m : Matcher) : Nat → Option Char → PyStr → List PyStr
  | 0, _, _ => []
  | _ + 1, _, [] => []
  | fuel + 1, prev, c :: rest =>
    match m prev (c :: rest) with
    | some (g, r) => g :: scanAux m fuel (g.getLast?.getD c) r
    | none => scanAux m fuel (some c) rest

/-- The sequence of `match.group()` values of `pattern.finditer(s)`. -/
def findIter (m : Matcher) (s : PyStr) : List PyStr := scanAux m s.length none s

/-- The compiled `preserve_patterns` of the default `TranslationConfig`, in
configuration order. -/
def defaultPreservePatterns : List Matcher :=
  [matchDecimal, matchInt, matchUnit, matchCurrency, matchAcronym, matchCode]

/-- `f"__PROT_{i}_{j}__"`. -/
def placeholder (i j : Nat) : PyStr :=
  ("__PROT_" ++ toString i ++ "_" ++ toString j ++ "__").data

/-- `NLLBTranslator._protect_patterns`: for each pattern `i` in order, for
each match `j` of that pattern **on the original text**, record
`placeholder ↦ match.group()` and replace the first occurrence (by value) of
`match.group()` in the running text by the placeholder. -/
def protectPatterns (pats : List Matcher) (text : PyStr) :
    List (PyStr × PyStr) × PyStr :=
  pats.enum.foldl
    (fun acc ip =>
      ((findIter ip.2 text).enum.foldl
        (fun acc2 jm =>
          let ph := placeholder ip.1 jm.1
          (acc2.1 ++ [(ph, jm.2)], replaceFirst jm.2 ph acc2.2))
        acc))
    ([], text)

/-- `NLLBTranslator._restore_patterns`: replace every placeholder by its
original, iterating over the mapping in insertion order. -/
def restorePatterns (text : PyStr) (prot : List (PyStr × PyStr)) : PyStr :=
  prot.foldl (fun t pr => replaceAll pr.1 pr.2 t) text

/-! ## Translation batcher (`NLLBTranslator.translate_batch`)

The language fields and the loaded model play no role in the batching logic;
the external backend (`_translate_batch_internal`, a network/model call that
may raise) is a parameter of type `List PyStr → Except ε (List PyStr)`. -/

structure TranslationConfig where
  source_lang : String
  target_lang : String
  max_length : Nat := 512
  batch_size : Nat := 8
  preserve_patterns : List Matcher := defaultPreservePatterns

def defaultConfig : TranslationConfig := { source_lang := "es", target_lang := "en" }

/-- `[(i, t) for i, t in enumerate(texts) if t and t.strip()]`, with the
enumeration starting at `n`. -/
def enumNonBlank (n : Nat) : List PyStr → List (Nat × PyStr)
  | [] => []
  | t :: ts =>
    if isBlank t then enumNonBlank (n + 1) ts
    else (n, t) :: enumNonBlank (n + 1) ts

/-- Worker for `chunksOf`; the fuel bounds the list length, and each step
consumes at least `B ≥ 1` elements. -/
def chunksOfAux {α : Type} (B : Nat) : Nat → List α → List (List α)
  | _, [] => []
  | 0, _ :: _ => []
  | fuel + 1, a :: l =>
    if B = 0 then []
    else (a :: l).take B :: chunksOfAux B fuel ((a :: l).drop B)

/-- `texts[i:i+B] for i in range(0, len(texts), B)` for `B ≥ 1` (Python
`range` would reject step `0`; that case returns `[]` here and is excluded by
hypothesis in every theorem). -/
def chunksOf {α : Type} (B : Nat) (l : List α) : List (List α) :=
  chunksOfAux B l.length l

/-- The accumulation loop `translated.extend(backend(chunk))`, aborting at the
first chunk for which the backend raises (there is no `try` in the source, so
the exception propagates unchanged). -/
def chunksTranslateE {ε : Type} (backend : List PyStr → Except ε (List PyStr)) :
    List (List PyStr) → Except ε (List PyStr)
  | [] => .ok []
  | c :: cs => do
    let r ← backend c
    let rest ← chunksTranslateE backend cs
    return r ++ rest

/-- `results[orig_idx] = trans` for each `((orig_idx, _), trans)` pair. -/
def applyAssign (texts : List PyStr) (asg : List ((Nat × PyStr) × PyStr)) :
    List PyStr :=
  asg.foldl (fun acc pr => acc.set pr.1.1 pr.2) texts

/-- `NLLBTranslator.translate_batch` (model loading omitted: it does not
touch the batching logic). -/
def translateBatchE {ε : Type} (cfg : TranslationConfig)
    (backend : List PyStr → Except ε (List PyStr)) (texts : List PyStr) :
    Except ε (List PyStr) :=
  if texts.isEmpty then .ok []
  else
    let nonEmpty := enumNonBlank 0 texts
    if nonEmpty.isEmpty then .ok texts
    else
      let protPairs := nonEmpty.map
        (fun p => protectPatterns cfg.preserve_patterns p.2)
      let protList := protPairs.map Prod.fst
      let toTranslate := protPairs.map Prod.snd
      (chunksTranslateE backend (chunksOf cfg.batch_size toTranslate)).map
        (fun translated =>
          let restored := List.zipWith
            (fun trans prot => restorePatterns trans prot) translated protList
          applyAssign texts (nonEmpty.zip restored))

/-- The chunks handed to the external backend by `translate_batch`: the
pattern-protected non-blank texts, in order, cut into `batch_size` slices. -/
def sentBatches (cfg : TranslationConfig) (texts : List PyStr) :
    List (List PyStr) :=
  chunksOf cfg.batch_size
    ((enumNonBlank 0 texts).map
      (fun p => (protectPatterns cfg.preserve_patterns p.2).2))

/-- The per-text protection mappings built by `translate_batch`, in the order
of the non-blank entries. -/
def protListOf (cfg : TranslationConfig) (texts : List PyStr) :
    List (List (PyStr × PyStr)) :=
  (enumNonBlank 0 texts).map
    (fun p => (protectPatterns cfg.preserve_patterns p.2).1)

/-- The list `restored` computed by `translate_batch` for a backend `f` that
never raises: per-chunk translations concatenated, then patterns restored. -/
def restoredOf (cfg : TranslationConfig) (f : List PyStr → List PyStr)
    (texts : List PyStr) : List PyStr :=
  List.zipWith (fun trans prot => restorePatterns trans prot)
    ((sentBatches cfg texts).map f).flatten
    (protListOf cfg texts)

/-! ### Specification-side views of the scatter step -/

/-- Walk `texts`, replacing the non-blank entries in order by the entries of
`rs` (stopping when `rs` runs out) and leaving blanks unchanged.  This is the
specification-side reading of `applyAssign` over `enumNonBlank`. -/
def scatterNB : List PyStr → List PyStr → List PyStr
  | [], _ => []
  | t :: ts, rs =>
    if isBlank t then t :: scatterNB ts rs
    else
      match rs with
      | [] => t :: scatterNB ts []
      | r :: rs' => r :: scatterNB ts rs'

/-- The entries of `res` at the non-blank positions of `texts`, in order. -/
def maskNB : List PyStr → List PyStr → List PyStr
  | [], _ => []
  | _, [] => []
  | t :: ts, r :: rs => if isBlank t then maskNB ts rs else r :: maskNB ts rs

/-! ### Lemmas about the batcher -/

theorem foldl_invariant {α β : Type} (P : β → Prop) (f : β → α → β)
    (hstep : ∀ b a, P b → P (f b a)) :
    ∀ (l : List α) (b : β), P b → P (l.foldl f b)
  | [], _, hb => hb
  | a :: l, b, hb => foldl_invariant P f hstep l (f b a) (hstep b a hb)

theorem isBlank_append (a b : PyStr) :
    isBlank (a ++ b) = (isBlank a && isBlank b) := List.all_append

theorem isBlank_replaceFirst {old new : PyStr} (hnew : isBlank new = false) :
    ∀ {s : PyStr}, isBlank s = false → isBlank (replaceFirst old new s) = false
  | [], hs => by simp [isBlank] at hs
  | c :: rest, hs => by
    unfold replaceFirst
    by_cases hp : old.isPrefixOf (c :: rest)
    · rw [if_pos hp, isBlank_append, hnew, Bool.false_and]
    · rw [if_neg hp]
      unfold isBlank at hs ⊢
      rw [List.all_cons] at hs ⊢
      by_cases hc : isPySpace c
      · rw [hc, Bool.true_and] at hs ⊢
        exact isBlank_replaceFirst hnew hs
      · rw [Bool.eq_false_iff.mpr hc, Bool.false_and]

theorem isBlank_placeholder (i j : Nat) : isBlank (placeholder i j) = false := by
  unfold placeholder
  rw [String.data_append]
  rfl

theorem protect_clean_nonblank (pats : List Matcher) {text : PyStr}
    (h : isBlank text = false) :
    isBlank (protectPatterns pats text).2 = false := by
  unfold protectPatterns
  refine foldl_invariant
    (fun (acc : List (PyStr × PyStr) × PyStr) => isBlank acc.2 = false) _ ?_ _ _ h
  intro acc ip hacc
  refine foldl_invariant
    (fun (acc2 : List (PyStr × PyStr) × PyStr) => isBlank acc2.2 = false) _ ?_ _ _ hacc
  intro acc2 jm hacc2
  exact isBlank_replaceFirst (isBlank_placeholder ip.1 jm.1) hacc2

theorem enumNonBlank_snd_nonblank :
    ∀ {n : Nat} {ts : List PyStr} {p : Nat × PyStr},
      p ∈ enumNonBlank n ts → isBlank p.2 = false
  | n, t :: ts, p, hp => by
    unfold enumNonBlank at hp
    by_cases hb : isBlank t
    · rw [if_pos hb] at hp
      exact enumNonBlank_snd_nonblank hp
    · rw [if_neg hb] at hp
      rcases List.mem_cons.mp hp with rfl | hp'
      · exact Bool.eq_false_iff.mpr hb
      · exact enumNonBlank_snd_nonblank hp'

theorem enumNonBlank_length_shift :
    ∀ (ts : List PyStr) (n m : Nat),
      (enumNonBlank n ts).length = (enumNonBlank m ts).length
  | [], _, _ => rfl
  | t :: ts, n, m => by
    unfold enumNonBlank
    by_cases hb : isBlank t
    · rw [if_pos hb, if_pos hb]
      exact enumNonBlank_length_shift ts (n + 1) (m + 1)
    · rw [if_neg hb, if_neg hb, List.length_cons, List.length_cons,
        enumNonBlank_length_shift ts (n + 1) (m + 1)]

theorem set_append_cons {α : Type} :
    ∀ (pre : List α) (t r : α) (ts : List α),
      (pre ++ t :: ts).set pre.length r = pre ++ r :: ts
  | [], _, _, _ => rfl
  | a :: pre, t, r, ts => by
    simp only [List.cons_append, List.length_cons, List.set_cons_succ]
    rw [set_append_cons pre t r ts]

theorem scatterNB_nil : ∀ (ts : List PyStr), scatterNB ts [] = ts
  | [] => rfl
  | t :: ts => by
    unfold scatterNB
    by_cases hb : isBlank t
    · rw [if_pos hb, scatterNB_nil ts]
    · rw [if_neg hb, scatterNB_nil ts]

theorem applyAssign_eq_scatterNB :
    ∀ (ts rs : List PyStr) (pre : List PyStr),
      applyAssign (pre ++ ts) ((enumNonBlank pre.length ts).zip rs) =
        pre ++ scatterNB ts rs
  | [], rs, pre => by simp [applyAssign, enumNonBlank, scatterNB]
  | t :: ts, rs, pre => by
    unfold enumNonBlank scatterNB
    by_cases hb : isBlank t
    · rw [if_pos hb, if_pos hb]
      have ih := applyAssign_eq_scatterNB ts rs (pre ++ [t])
      simp only [List.append_assoc, List.cons_append, List.nil_append,
        List.length_append, List.length_cons, List.length_nil] at ih
      simpa using ih
    · rw [if_neg hb, if_neg hb]
      match rs with
      | [] =>
        simp only [List.zip_nil_right]
        simp [applyAssign, scatterNB_nil]
      | r :: rs' =>
        rw [List.zip_cons_cons]
        show applyAssign ((pre ++ t :: ts).set pre.length r)
          ((enumNonBlank (pre.length + 1) ts).zip rs') = pre ++ r :: scatterNB ts rs'
        rw [set_append_cons]
        have ih := applyAssign_eq_scatterNB ts rs' (pre ++ [r])
        simp only [List.append_assoc, List.cons_append, List.nil_append,
          List.length_append, List.length_cons, List.length_nil] at ih
        simpa using ih

theorem scatterNB_length :
    ∀ (ts rs : List PyStr), (scatterNB ts rs).length = ts.length
  | [], _ => rfl
  | t :: ts, rs => by
    unfold scatterNB
    by_cases hb : isBlank t
    · rw [if_pos hb, List.length_cons, scatterNB_length ts rs]
      rfl
    · rw [if_neg hb]
      match rs with
      | [] =>
        rw [List.length_cons, scatterNB_length ts []]
        rfl
      | r :: rs' =>
        rw [List.length_cons, scatterNB_length ts rs']
        rfl

theorem maskNB_scatterNB :
    ∀ (ts rs : List PyStr), rs.length = (enumNonBlank 0 ts).length →
      maskNB ts (scatterNB ts rs) = rs
  | [], [], _ => rfl
  | [], r :: rs, h => by simp [enumNonBlank] at h
  | t :: ts, rs, h => by
    unfold enumNonBlank at h
    by_cases hb : isBlank t
    · rw [if_pos hb] at h
      unfold scatterNB
      rw [if_pos hb]
      show maskNB (t :: ts) (t :: scatterNB ts rs) = rs
      unfold maskNB
      rw [if_pos hb]
      exact maskNB_scatterNB ts rs
        (h.trans (enumNonBlank_length_shift ts 1 0))
    · rw [if_neg hb, List.length_cons] at h
      cases rs with
      | nil => simp at h
      | cons r rs' =>
        unfold scatterNB
        rw [if_neg hb]
        show maskNB (t :: ts) (r :: scatterNB ts rs') = r :: rs'
        unfold maskNB
        rw [if_neg hb]
        congr 1
        refine maskNB_scatterNB ts rs' ?_
        have h' : rs'.length + 1 = (enumNonBlank 1 ts).length + 1 := by
          simpa using h
        exact (Nat.succ_injective h').trans (enumNonBlank_length_shift ts 1 0)

theorem maskNB_all_blank :
    ∀ {ts : List PyStr}, enumNonBlank 0 ts = [] →
      ∀ (rs : List PyStr), maskNB ts rs = []
  | [], _, rs => by cases rs <;> rfl
  | t :: ts, h, rs => by
    unfold enumNonBlank at h
    by_cases hb : isBlank t
    · rw [if_pos hb] at h
      have h0 : enumNonBlank 0 ts = [] := by
        cases hts : enumNonBlank 0 ts with
        | nil => rfl
        | cons p l =>
          have := enumNonBlank_length_shift ts 1 0
          rw [h, hts] at this
          simp at this
      match rs with
      | [] => rfl
      | r :: rs' =>
        show maskNB (t :: ts) (r :: rs') = []
        unfold maskNB
        rw [if_pos hb]
        exact maskNB_all_blank h0 rs'
    · rw [if_neg hb] at h
      exact absurd h (List.cons_ne_nil _ _)

theorem scatterNB_blank_getD :
    ∀ (ts rs : List PyStr) (i : Nat), isBlank (ts.getD i []) = true →
      (scatterNB ts rs).getD i [] = ts.getD i []
  | [], rs, i, _ => by simp [scatterNB]
  | t :: ts, rs, i, h => by
    unfold scatterNB
    by_cases hb : isBlank t
    · rw [if_pos hb]
      match i with
      | 0 => rfl
      | i + 1 => exact scatterNB_blank_getD ts rs i h
    · rw [if_neg hb]
      match rs with
      | [] =>
        match i with
        | 0 => rfl
        | i + 1 => exact scatterNB_blank_getD ts [] i h
      | r :: rs' =>
        match i with
        | 0 => exact absurd h (by simpa using hb)
        | i + 1 => exact scatterNB_blank_getD ts rs' i h

theorem chunksOfAux_flatten {α : Type} {B : Nat} (hB : 0 < B) :
    ∀ (fuel : Nat) (l : List α), l.length ≤ fuel →
      (chunksOfAux B fuel l).flatten = l
  | fuel, [], _ => by cases fuel <;> rfl
  | 0, a :: l, h => by simp at h
  | fuel + 1, a :: l, h => by
    unfold chunksOfAux
    rw [if_neg (Nat.pos_iff_ne_zero.mp hB), List.flatten_cons]
    rw [chunksOfAux_flatten hB fuel ((a :: l).drop B) ?_]
    · exact List.take_append_drop B (a :: l)
    · rw [List.length_drop]
      simp only [List.length_cons] at h ⊢
      omega

theorem chunksOf_flatten {α : Type} {B : Nat} (hB : 0 < B) (l : List α) :
    (chunksOf B l).flatten = l :=
  chunksOfAux_flatten hB l.length l (Nat.le_refl _)

theorem mem_chunksOf {α : Type} {B : Nat} (hB : 0 < B) {l : List α}
    {c : List α} {x : α} (hc : c ∈ chunksOf B l) (hx : x ∈ c) : x ∈ l := by
  rw [← chunksOf_flatten hB l]
  exact List.mem_flatten.mpr ⟨c, hc, hx⟩

theorem chunksTranslateE_pure {ε : Type} (f : List PyStr → List PyStr) :
    ∀ (cs : List (List PyStr)),
      chunksTranslateE (ε := ε) (fun c => .ok (f c)) cs = .ok (cs.map f).flatten
  | [] => rfl
  | c :: cs => by
    unfold chunksTranslateE
    rw [chunksTranslateE_pure f cs]
    rfl

theorem chunksTranslateE_error_first {ε : Type}
    {backend : List PyStr → Except ε (List PyStr)} :
    ∀ (cs1 : List (List PyStr)) (c : List PyStr) (cs2 : List (List PyStr))
      (e : ε), (∀ c' ∈ cs1, ∃ r, backend c' = .ok r) → backend c = .error e →
      chunksTranslateE backend (cs1 ++ c :: cs2) = .error e
  | [], c, cs2, e, _, hc => by
    rw [List.nil_append]
    unfold chunksTranslateE
    rw [hc]
    rfl
  | c1 :: cs1, c, cs2, e, hok, hc => by
    rcases hok c1 (List.mem_cons_self c1 cs1) with ⟨r, hr⟩
    have ih := chunksTranslateE_error_first cs1 c cs2 e
      (fun c' hc' => hok c' (List.mem_cons_of_mem c1 hc')) hc
    rw [List.cons_append]
    show (do
      let r ← backend c1
      let rest ← chunksTranslateE backend (cs1 ++ c :: cs2)
      return r ++ rest) = Except.error e
    rw [hr, ih]
    rfl

theorem flatten_map_length {f : List PyStr → List PyStr} :
    ∀ {cs : List (List PyStr)}, (∀ c ∈ cs, (f c).length = c.length) →
      ((cs.map f).flatten).length = cs.flatten.length
  | [], _ => rfl
  | c :: cs, h => by
    rw [List.map_cons, List.flatten_cons, List.flatten_cons,
      List.length_append, List.length_append,
      h c (List.mem_cons_self c cs),
      flatten_map_length (fun c' hc' => h c' (List.mem_cons_of_mem c hc'))]

/-- In the non-degenerate case, `translate_batch` pipes the protected texts
through the chunk loop and scatters the restored results. -/
theorem translateBatchE_eq {ε : Type} (cfg : TranslationConfig)
    (backend : List PyStr → Except ε (List PyStr)) (texts : List PyStr)
    (h0 : ¬texts.isEmpty) (h1 : ¬(enumNonBlank 0 texts).isEmpty) :
    translateBatchE cfg backend texts =
      (chunksTranslateE backend (sentBatches cfg texts)).map
        (fun translated =>
          applyAssign texts ((enumNonBlank 0 texts).zip
            (List.zipWith (fun trans prot => restorePatterns trans prot)
              translated (protListOf cfg texts)))) := by
  simp only [translateBatchE, if_neg h0, if_neg h1, sentBatches, protListOf,
    List.map_map, Function.comp_def]

theorem enumNonBlank_length_le (cfg : TranslationConfig)
    (f : List PyStr → List PyStr) (texts : List PyStr)
    (hB : 0 < cfg.batch_size)
    (hlen : ∀ c ∈ sentBatches cfg texts, (f c).length = c.length) :
    (((sentBatches cfg texts).map f).flatten).length =
      (enumNonBlank 0 texts).length := by
  rw [flatten_map_length hlen]
  unfold sentBatches
  rw [chunksOf_flatten hB, List.length_map]

theorem restoredOf_length (cfg : TranslationConfig)
    (f : List PyStr → List PyStr) (texts : List PyStr)
    (hB : 0 < cfg.batch_size)
    (hlen : ∀ c ∈ sentBatches cfg texts, (f c).length = c.length) :
    (restoredOf cfg f texts).length = (enumNonBlank 0 texts).length := by
  unfold restoredOf
  rw [List.length_zipWith, enumNonBlank_length_le cfg f texts hB hlen]
  unfold protListOf
  rw [List.length_map, Nat.min_self]

/-- **C1**: for every input list and every backend that returns one output
per input on each chunk, `translate_batch` returns a list of the input's
length, and its entries at the non-blank input positions, read in order, are
exactly the restored backend outputs for the non-blank inputs, in input
order (so placement is at the original indices and relative order is kept). -/
theorem translate_batch_length_and_order {ε : Type} (cfg : TranslationConfig)
    (f : List PyStr → List PyStr) (texts : List PyStr)
    (hB : 0 < cfg.batch_size)
    (hlen : ∀ c ∈ sentBatches cfg texts, (f c).length = c.length) :
    ∃ res, translateBatchE (ε := ε) cfg (fun c => .ok (f c)) texts = .ok res ∧
      res.length = texts.length ∧
      maskNB texts res = restoredOf cfg f texts := by
  by_cases h0 : texts.isEmpty
  · rw [List.isEmpty_iff] at h0
    subst h0
    exact ⟨[], rfl, rfl, rfl⟩
  · by_cases h1 : (enumNonBlank 0 texts).isEmpty
    · refine ⟨texts, ?_, rfl, ?_⟩
      · unfold translateBatchE
        rw [if_neg h0, if_pos h1]
      · rw [List.isEmpty_iff] at h1
        rw [maskNB_all_blank h1 texts]
        unfold restoredOf protListOf sentBatches
        rw [h1]
        rfl
    · rw [translateBatchE_eq cfg _ texts h0 h1,
        chunksTranslateE_pure f (sentBatches cfg texts)]
      have hsc := applyAssign_eq_scatterNB texts (restoredOf cfg f texts) []
      simp only [List.nil_append, List.length_nil] at hsc
      refine ⟨applyAssign texts
        ((enumNonBlank 0 texts).zip (restoredOf cfg f texts)), rfl, ?_, ?_⟩
      · rw [hsc, scatterNB_length]
      · rw [hsc, maskNB_scatterNB texts _
          (restoredOf_length cfg f texts hB hlen)]

/-- **C1** (witness): the identity backend on `["", "hola"]` with the default
configuration. -/
theorem translate_batch_length_and_order_witness :
    ∃ res, translateBatchE (ε := Unit) defaultConfig
        (fun c => .ok (id c)) ["".data, "hola".data] = .ok res ∧
      res.length = (["".data, "hola".data] : List PyStr).length ∧
      maskNB ["".data, "hola".data] res =
        restoredOf defaultConfig id ["".data, "hola".data] :=
  translate_batch_length_and_order defaultConfig id ["".data, "hola".data]
    (by decide) (fun c _ => rfl)

/-- **C4**: (a) every string in every chunk handed to the backend is
non-blank (protection never blanks a non-blank text); (b) whenever
`translate_batch` returns a result, every blank input entry is returned
unchanged at its original index, for an arbitrary backend; (c) on
`["", "  ", "x"]` the single chunk sent to the backend is exactly `["x"]`. -/
theorem translate_batch_blank_passthrough :
    (∀ (cfg : TranslationConfig) (texts : List PyStr)
       (c : List PyStr) (s : PyStr), 0 < cfg.batch_size →
       c ∈ sentBatches cfg texts → s ∈ c → isBlank s = false) ∧
    (∀ {ε : Type} (cfg : TranslationConfig)
       (backend : List PyStr → Except ε (List PyStr))
       (texts res : List PyStr), translateBatchE cfg backend texts = .ok res →
       ∀ i, isBlank (texts.getD i []) = true →
         res.getD i [] = texts.getD i []) ∧
    sentBatches defaultConfig ["".data, "  ".data, "x".data] = [["x".data]] := by
  refine ⟨?_, ?_, by decide⟩
  · intro cfg texts c s hB hc hs
    have hmem := mem_chunksOf hB hc hs
    rcases List.mem_map.mp hmem with ⟨p, hp, rfl⟩
    exact protect_clean_nonblank cfg.preserve_patterns
      (enumNonBlank_snd_nonblank hp)
  · intro ε cfg backend texts res hok i hblank
    by_cases h0 : texts.isEmpty
    · rw [List.isEmpty_iff] at h0
      subst h0
      unfold translateBatchE at hok
      simp only [List.isEmpty_nil, if_pos] at hok
      cases hok
      rfl
    · by_cases h1 : (enumNonBlank 0 texts).isEmpty
      · unfold translateBatchE at hok
        rw [if_neg h0, if_pos h1] at hok
        cases hok
        rfl
      · rw [translateBatchE_eq cfg backend texts h0 h1] at hok
        cases hct : chunksTranslateE backend (sentBatches cfg texts) with
        | error e => rw [hct] at hok; cases hok
        | ok translated =>
          rw [hct] at hok
          have hres : res = applyAssign texts ((enumNonBlank 0 texts).zip
              (List.zipWith (fun trans prot => restorePatterns trans prot)
                translated (protListOf cfg texts))) := by
            cases hok
            rfl
          subst hres
          have := applyAssign_eq_scatterNB texts
            (List.zipWith (fun trans prot => restorePatterns trans prot)
              translated (protListOf cfg texts)) []
          simp only [List.nil_append, List.length_nil] at this
          rw [this]
          exact scatterNB_blank_getD texts _ i hblank

/-- **C4** (witness): instances of the two universally quantified parts at
the concrete input `["", "  ", "x"]` with the pass-through backend. -/
theorem translate_batch_blank_passthrough_witness :
    isBlank "x".data = false ∧
    (translateBatchE (ε := Unit) defaultConfig (fun c => .ok c)
        ["".data, "  ".data, "x".data] = .ok ["".data, "  ".data, "x".data] →
      (["".data, "  ".data, "x".data] : List PyStr).getD 1 [] = "  ".data) :=
  ⟨translate_batch_blank_passthrough.1 defaultConfig
      ["".data, "  ".data, "x".data] ["x".data] "x".data
      (by decide) (by decide) (by decide),
   fun h => translate_batch_blank_passthrough.2.1 defaultConfig
      (fun c => .ok c) ["".data, "  ".data, "x".data]
      ["".data, "  ".data, "x".data] h 1 (by decide)⟩

/-- **C5** (amended): if the backend succeeds on every chunk before some
chunk `c` and raises on `c`, `translate_batch` surfaces the backend's own
exception value, unchanged and unwrapped (there is no
`TranslationBackendError` in the code), and returns no result list at all —
in particular no partial results are applied, since the scatter into the
output happens only after every chunk has succeeded. -/
theorem translate_batch_error_propagation {ε : Type} (cfg : TranslationConfig)
    (backend : List PyStr → Except ε (List PyStr)) (texts : List PyStr)
    (cs1 : List (List PyStr)) (c : List PyStr) (cs2 : List (List PyStr))
    (e : ε) (hsplit : sentBatches cfg texts = cs1 ++ c :: cs2)
    (hok : ∀ c' ∈ cs1, ∃ r, backend c' = .ok r)
    (herr : backend c = .error e) :
    translateBatchE cfg backend texts = .error e := by
  have h0 : ¬texts.isEmpty := by
    intro h
    rw [List.isEmpty_iff] at h
    subst h
    have : sentBatches cfg [] = [] := rfl
    rw [hsplit] at this
    exact List.cons_ne_nil c cs2 (List.append_eq_nil.mp this).2
  have h1 : ¬(enumNonBlank 0 texts).isEmpty := by
    intro h
    rw [List.isEmpty_iff] at h
    have : sentBatches cfg texts = [] := by
      unfold sentBatches
      rw [h]
      rfl
    rw [hsplit] at this
    exact List.cons_ne_nil c cs2 (List.append_eq_nil.mp this).2
  rw [translateBatchE_eq cfg backend texts h0 h1, hsplit,
    chunksTranslateE_error_first cs1 c cs2 e hok herr]
  rfl

/-- **C5** (witness): with batch size 1, a backend that translates `["a"]`
but raises `3` on `["b"]` makes `translate_batch ["a", "b"]` surface `3`. -/
theorem translate_batch_error_propagation_witness :
    translateBatchE { defaultConfig with batch_size := 1 }
      (fun c => if c = ["a".data] then .ok [['A']] else .error 3)
      ["a".data, "b".data] = .error 3 :=
  translate_batch_error_propagation { defaultConfig with batch_size := 1 }
    (fun c => if c = ["a".data] then .ok [['A']] else .error 3)
    ["a".data, "b".data] [["a".data]] ["b".data] [] 3 (by decide)
    (fun c' hc' => by
      rw [List.mem_singleton] at hc'
      subst hc'
      exact ⟨[['A']], rfl⟩)
    rfl

/-- **C5** (counterexample): the surfaced error is exactly the backend's
exception value and is identical for two runs whose failing chunks contain
different texts — it carries no `TranslationBackendError` wrapper and no
record of the failing chunk's texts. -/
theorem translate_batch_error_counterexample :
    translateBatchE (ε := Nat) defaultConfig (fun _ => .error 7)
        ["x".data] = .error 7 ∧
    translateBatchE (ε := Nat) defaultConfig (fun _ => .error 7)
        ["y".data] = .error 7 ∧
    ("x".data : PyStr) ≠ "y".data :=
  ⟨rfl, rfl, by decide⟩

/-! ### Pattern guard round trip (claim C3) -/

/-- **C3** (amended): `protect` records one placeholder per match occurrence
(`__PROT_i_j__` for the `j`-th match of pattern `i`, distinct keys, as the
mapping for `"Precio: 450.000€"` shows), but each replacement consumes the
first occurrence **of the matched literal's value** in the running text, not
the occurrence at the match's position; `restore` substitutes every recorded
placeholder back.  For `"Precio: 450.000€"` the round trip reproduces the
text verbatim, number and currency symbol included.  (It does not do so for
every text: see the counterexample.) -/
theorem protect_restore_example :
    (protectPatterns defaultPreservePatterns "Precio: 450.000€".data).1 =
      [("__PROT_0_0__".data, "450.000".data),
       ("__PROT_1_0__".data, "450".data),
       ("__PROT_1_1__".data, "000".data),
       ("__PROT_3_0__".data, "€".data)] ∧
    ((protectPatterns defaultPreservePatterns
        "Precio: 450.000€".data).1.map Prod.fst).Nodup ∧
    (protectPatterns defaultPreservePatterns "Precio: 450.000€".data).2 =
      "Precio: __PROT_0_0____PROT_3_0__".data ∧
    restorePatterns
        (protectPatterns defaultPreservePatterns "Precio: 450.000€".data).2
        (protectPatterns defaultPreservePatterns "Precio: 450.000€".data).1 =
      "Precio: 450.000€".data := by
  refine ⟨by decide, by decide, by decide, by decide⟩

/-- **C3** (counterexample): on `"1.2 0"` the match `"0"` of pattern `\d+` is
replaced at the first occurrence of the character `0` in the running text,
which lies **inside** the placeholder `__PROT_0_0__` inserted for `"1.2"`;
the corrupted placeholder can no longer be restored, so restoring the guarded
text with its own mapping does not reproduce the original text. -/
theorem protect_restore_counterexample :
    (protectPatterns defaultPreservePatterns "1.2 0".data).2 =
      "__PROT___PROT_1_2___0__ 0".data ∧
    restorePatterns
        (protectPatterns defaultPreservePatterns "1.2 0".data).2
        (protectPatterns defaultPreservePatterns "1.2 0".data).1 =
      "__PROT_0_0__ 0".data ∧
    restorePatterns
        (protectPatterns defaultPreservePatterns "1.2 0".data).2
        (protectPatterns defaultPreservePatterns "1.2 0".data).1 ≠
      "1.2 0".data := by
  refine ⟨by decide, by decide, by decide⟩

/-! ## PDF rebuilder (`transmatrix/reconstruction/pdf_rebuilder.py`)

The fitz page is external; `_replace_span` / `_replace_cell` are modelled by
the arguments they pass to the two drawing primitives (`draw_rect` +
`insert_text`).  The rebuilder reads the document tree and never writes to
it, so its embedding is a pure function of the document. -/

structure RebuilderConfig where
  cover_margin : ℚ := 2
  cover_color : ℚ × ℚ × ℚ := (1, 1, 1)
  min_font_scale : ℚ := 3 / 5
  fallback_font : String := "helv"
  preserve_fonts : Bool := true
deriving DecidableEq, Repr

def defaultRebuilderConfig : RebuilderConfig := {}

def FONT_MAP : List (String × String) :=
  [("arial", "helv"), ("arialmt", "helv"), ("arialboldmt", "hebo"),
   ("arialitalicmt", "heit"), ("arialbolditalicmt", "hebi"),
   ("arialroundedmtbold", "hebo"), ("helvetica", "helv"),
   ("helveticabold", "hebo"), ("times", "tiro"), ("timesnewroman", "tiro"),
   ("timesroman", "tiro"), ("timesbold", "tibo"), ("courier", "cour"),
   ("couriernew", "cour"), ("impact", "hebo")]

/-- `round(x, 1)`.  Mathlib's `round` rounds half away from the floor while
Python rounds half to even; the two agree everywhere except exact `.05` ties,
which none of the verified properties depend on. -/
def round1 (x : ℚ) : ℚ := (round (10 * x) : ℤ) / 10

/-- `PDFRebuilder._get_font`: lowercase, strip spaces and hyphens, look the
family up in `FONT_MAP`, else fall back by style bits. -/
def PDFRebuilder.get_font (original_font : String)
    (is_bold is_italic : Bool) : String :=
  let font_lower := String.mk
    ((original_font.toLower).data.filter (fun c => c ≠ ' ' ∧ c ≠ '-'))
  match FONT_MAP.lookup font_lower with
  | some f => f
  | none =>
    if is_bold && is_italic then "hebi"
    else if is_bold then "hebo"
    else if is_italic then "heit"
    else "helv"

/-- `PDFRebuilder._calculate_font_size`: estimate the width as
`len(text) * size * 0.5`; shrink proportionally on overflow but never below
`size * min_font_scale`; round to one decimal. -/
def PDFRebuilder.calculate_font_size (cfg : RebuilderConfig) (text : String)
    (bbox : BBox) (original_size : ℚ) : ℚ :=
  let size := original_size
  let available_width := bbox.width
  let estimated_width := (text.length : ℚ) * size * (1 / 2)
  if available_width < estimated_width ∧ 0 < available_width then
    round1 (max (size * (available_width / estimated_width))
      (size * cfg.min_font_scale))
  else round1 size

/-- `PDFRebuilder._fit_text_in_rect`: first size of
`[max_size, 10, 8, 6, min_size]` whose estimated width fits
`bbox.width - 4`, else `min_size`. -/
def PDFRebuilder.fit_text_in_rect (text : String) (bbox : BBox)
    (max_size : ℚ := 12) (min_size : ℚ := 4) : ℚ :=
  let available_width := bbox.width - 4
  match [max_size, 10, 8, 6, min_size].find?
      (fun size =>
        decide ((text.length : ℚ) * size * (1 / 2) ≤ available_width)) with
  | some s => s
  | none => min_size

/-- `PDFRebuilder._int_to_rgb`. -/
def PDFRebuilder.int_to_rgb (color_int : Nat) : ℚ × ℚ × ℚ :=
  (((color_int >>> 16) &&& 255 : Nat) / 255,
   ((color_int >>> 8) &&& 255 : Nat) / 255,
   ((color_int &&& 255 : Nat) : ℚ) / 255)

/-- The arguments of the cover `draw_rect` and of the (first attempted)
`insert_text` issued for one span or cell. -/
structure DrawCall where
  cover : BBox
  fill : ℚ × ℚ × ℚ
  point : ℚ × ℚ
  text : String
  fontname : String
  fontsize : ℚ
  color : ℚ × ℚ × ℚ
deriving DecidableEq, Repr

/-- `PDFRebuilder._replace_span`: cover rectangle expanded by `cover_margin`,
resolved font, calculated size, anchor `(x0, y1 - 1)`.  (On a draw failure the
code retries once with `fallback_font` at the same size, then skips; that
branch depends only on the external library.) -/
def PDFRebuilder.replace_span (cfg : RebuilderConfig) (span : TextSpan) :
    DrawCall :=
  { cover := ⟨span.bbox.x0 - cfg.cover_margin, span.bbox.y0 - cfg.cover_margin,
              span.bbox.x1 + cfg.cover_margin, span.bbox.y1 + cfg.cover_margin⟩,
    fill := cfg.cover_color,
    point := (span.bbox.x0, span.bbox.y1 - 1),
    text := span.translated_text.getD "",
    fontname := PDFRebuilder.get_font span.font span.is_bold span.is_italic,
    fontsize := PDFRebuilder.calculate_font_size cfg
      (span.translated_text.getD "") span.bbox span.size,
    color := PDFRebuilder.int_to_rgb span.color }

/-- `PDFRebuilder._replace_cell`: cover rectangle inset by 1, size from
`_fit_text_in_rect` with `max_size=10`, anchor inset by 2 and vertically
centered, always the fallback font, black. -/
def PDFRebuilder.replace_cell (cfg : RebuilderConfig) (cell : TableCell) :
    DrawCall :=
  let font_size := PDFRebuilder.fit_text_in_rect
    (cell.translated_text.getD "") cell.bbox 10 4
  { cover := ⟨cell.bbox.x0 + 1, cell.bbox.y0 + 1,
              cell.bbox.x1 - 1, cell.bbox.y1 - 1⟩,
    fill := cfg.cover_color,
    point := (cell.bbox.x0 + 2,
              cell.bbox.y0 + cell.bbox.height / 2 + font_size / 3),
    text := cell.translated_text.getD "",
    fontname := cfg.fallback_font,
    fontsize := font_size,
    color := (0, 0, 0) }

/-- `span.translated_text and span.translated_text != span.text`. -/
def spanNeedsReplace (s : TextSpan) : Bool :=
  match s.translated_text with
  | none => false
  | some t => t ≠ "" ∧ t ≠ s.text

/-- `cell.translated_text and cell.translated_text != cell.text`. -/
def cellNeedsReplace (c : TableCell) : Bool :=
  match c.translated_text with
  | none => false
  | some t => t ≠ "" ∧ t ≠ c.text

/-- `PDFRebuilder._rebuild_page_with_progress`: draw calls for the spans to
process, then for the cells to process. -/
def PDFRebuilder.rebuild_page_ops (cfg : RebuilderConfig) (page : Page) :
    List DrawCall :=
  ((page.text_blocks.map
      (fun b => (b.lines.map
        (fun l => l.spans.filter spanNeedsReplace)).flatten)).flatten.map
    (PDFRebuilder.replace_span cfg)) ++
  ((page.tables.map (fun t => t.cells.filter cellNeedsReplace)).flatten.map
    (PDFRebuilder.replace_cell cfg))

/-- `PDFRebuilder.rebuild` as far as the document is concerned: it emits draw
calls per page and returns the document tree it read, untouched (the Python
method assigns to no field of `Document`). -/
def PDFRebuilder.rebuild_ops (cfg : RebuilderConfig) (doc : Document) :
    List (List DrawCall) × Document :=
  (doc.pages.map (PDFRebuilder.rebuild_page_ops cfg), doc)

theorem round1_mono {x y : ℚ} (h : x ≤ y) : round1 x ≤ round1 y := by
  unfold round1
  have hr : round (10 * x) ≤ round (10 * y) := by
    rw [round_eq, round_eq]
    exact Int.floor_le_floor (by linarith)
  have : ((round (10 * x) : ℤ) : ℚ) ≤ ((round (10 * y) : ℤ) : ℚ) :=
    Int.cast_le.mpr hr
  linarith

/-- **C6**: with the default configuration (`min_font_scale = 0.6`), for any
box of positive width and positive original size: if the estimated width
fits, the chosen size is the original rounded to one decimal; on overflow it
is the proportionally shrunk size clamped at `original * 0.6` and rounded to
one decimal, hence between `round1 (0.6 * s)` and `round1 s`; in particular
for original size 10 it is never below 6. -/
theorem calculate_font_size_floor (text : String) (bbox : BBox) (s : ℚ)
    (hW : 0 < bbox.width) (hs : 0 < s) :
    ((text.length : ℚ) * s * (1 / 2) ≤ bbox.width →
      PDFRebuilder.calculate_font_size defaultRebuilderConfig text bbox s =
        round1 s) ∧
    (bbox.width < (text.length : ℚ) * s * (1 / 2) →
      PDFRebuilder.calculate_font_size defaultRebuilderConfig text bbox s =
        round1 (max (s * (bbox.width / ((text.length : ℚ) * s * (1 / 2))))
          (s * (3 / 5))) ∧
      round1 (s * (3 / 5)) ≤
        PDFRebuilder.calculate_font_size defaultRebuilderConfig text bbox s ∧
      PDFRebuilder.calculate_font_size defaultRebuilderConfig text bbox s ≤
        round1 s) ∧
    (bbox.width < (text.length : ℚ) * s * (1 / 2) → s = 10 →
      6 ≤ PDFRebuilder.calculate_font_size defaultRebuilderConfig text bbox s) := by
  unfold PDFRebuilder.calculate_font_size
  refine ⟨?_, ?_, ?_⟩
  · intro hfit
    rw [if_neg (fun hcon => absurd hfit (not_le.mpr hcon.1))]
  · intro hover
    rw [if_pos ⟨hover, hW⟩]
    refine ⟨rfl, round1_mono (le_max_right _ _), round1_mono ?_⟩
    have hest : 0 < (text.length : ℚ) * s * (1 / 2) := lt_trans hW hover
    have hscale : bbox.width / ((text.length : ℚ) * s * (1 / 2)) < 1 :=
      (div_lt_one hest).mpr hover
    refine max_le ?_ ?_
    · have := mul_lt_mul_of_pos_left hscale hs
      linarith
    · have hmin : defaultRebuilderConfig.min_font_scale = 3 / 5 := rfl
      rw [hmin]
      linarith
  · intro hover hs10
    rw [if_pos ⟨hover, hW⟩]
    subst hs10
    have h6 : round1 (10 * (3 / 5)) = 6 := by
      norm_num [round1, round_eq]
    calc (6 : ℚ) = round1 (10 * (3 / 5)) := h6.symm
      _ ≤ _ := round1_mono (le_max_right _ _)

/-- **C6** (witness): ten characters at size 10 overflow a box of width 20
(estimate 50), and the chosen size stays at or above the floor 6.0. -/
theorem calculate_font_size_floor_witness :
    6 ≤ PDFRebuilder.calculate_font_size defaultRebuilderConfig "aaaaaaaaaa"
      ⟨0, 0, 20, 10⟩ 10 :=
  (calculate_font_size_floor "aaaaaaaaaa" ⟨0, 0, 20, 10⟩ 10
      (by norm_num [BBox.width]) (by norm_num)).2.2
      (by norm_num [BBox.width, show ("aaaaaaaaaa" : String).length = 10 from rfl])
      rfl

/-- The cell font size as the specification words it: the largest candidate
of the fixed descending list `(12, 10, 8, 6, 4)` whose estimated width
`len(text) * size * 0.5` fits the cell's inner width (`width - 4`),
defaulting to the smallest candidate when none fits. -/
def specCellFontSize (text : String) (bbox : BBox) : ℚ :=
  match [(12 : ℚ), 10, 8, 6, 4].find?
      (fun size =>
        decide ((text.length : ℚ) * size * (1 / 2) ≤ bbox.width - 4)) with
  | some s => s
  | none => 4

def wideCell : TableCell :=
  { bbox := ⟨0, 0, 20, 10⟩, text := "AB", row := 0, col := 0,
    translated_text := some "XY" }

/-- **C8** (counterexample): on a 20-wide cell with a 2-character text, size
12 fits the inner width 16, so the claimed rule from the list
`(12, 10, 8, 6, 4)` picks 12 — but `_replace_cell` passes `max_size=10` to
`_fit_text_in_rect`, so the code draws at size 10. -/
theorem replace_cell_font_counterexample :
    (PDFRebuilder.replace_cell defaultRebuilderConfig wideCell).fontsize = 10 ∧
    specCellFontSize "XY" wideCell.bbox = 12 ∧
    (PDFRebuilder.replace_cell defaultRebuilderConfig wideCell).fontsize ≠
      specCellFontSize "XY" wideCell.bbox := by
  have hl : (("XY" : String).length : ℚ) = 2 := by
    norm_num [show ("XY" : String).length = 2 from rfl]
  have hw : wideCell.bbox.width - 4 = 16 := by
    norm_num [wideCell, BBox.width]
  have hp : ∀ size : ℚ, size ≤ 16 →
      (("XY" : String).length : ℚ) * size * (1 / 2) ≤
        wideCell.bbox.width - 4 := by
    intro size hsz
    rw [hl, hw]
    linarith
  have h10 : PDFRebuilder.fit_text_in_rect "XY" wideCell.bbox 10 4 = 10 := by
    unfold PDFRebuilder.fit_text_in_rect
    simp only [List.find?, decide_eq_true (hp 10 (by norm_num))]
  have h12 : specCellFontSize "XY" wideCell.bbox = 12 := by
    unfold specCellFontSize
    simp only [List.find?, decide_eq_true (hp 12 (by norm_num))]
  refine ⟨h10, h12, ?_⟩
  rw [show (PDFRebuilder.replace_cell defaultRebuilderConfig wideCell).fontsize =
    PDFRebuilder.fit_text_in_rect "XY" wideCell.bbox 10 4 from rfl, h10, h12]
  norm_num

/-- **C8** (amended): for every replaced cell the candidate list is
`(10, 10, 8, 6, 4)` — `_replace_cell` caps `max_size` at 10 — the first
(= largest, as fitting is downward closed) fitting candidate is chosen,
defaulting to 4 when none fits, and the cell is always drawn with the
configured fallback font, never a per-run font. -/
theorem replace_cell_font_choice (cfg : RebuilderConfig) (cell : TableCell) :
    (PDFRebuilder.replace_cell cfg cell).fontname = cfg.fallback_font ∧
    (PDFRebuilder.replace_cell cfg cell).fontsize =
      (if ((cell.translated_text.getD "").length : ℚ) * 10 * (1 / 2) ≤
          cell.bbox.width - 4 then (10 : ℚ)
       else if ((cell.translated_text.getD "").length : ℚ) * 8 * (1 / 2) ≤
          cell.bbox.width - 4 then 8
       else if ((cell.translated_text.getD "").length : ℚ) * 6 * (1 / 2) ≤
          cell.bbox.width - 4 then 6
       else 4) := by
  refine ⟨rfl, ?_⟩
  show (match List.find?
      (fun size => decide (((cell.translated_text.getD "").length : ℚ) *
        size * (1 / 2) ≤ cell.bbox.width - 4)) [10, 10, 8, 6, 4] with
    | some s => s
    | none => (4 : ℚ)) = _
  by_cases h10 : ((cell.translated_text.getD "").length : ℚ) * 10 * (1 / 2) ≤
      cell.bbox.width - 4
  · simp only [List.find?, decide_eq_true h10]
    rw [if_pos h10]
  · by_cases h8 : ((cell.translated_text.getD "").length : ℚ) * 8 * (1 / 2) ≤
        cell.bbox.width - 4
    · simp only [List.find?, decide_eq_false h10, decide_eq_true h8]
      rw [if_neg h10, if_pos h8]
    · by_cases h6 : ((cell.translated_text.getD "").length : ℚ) * 6 * (1 / 2) ≤
          cell.bbox.width - 4
      · simp only [List.find?, decide_eq_false h10, decide_eq_false h8,
          decide_eq_true h6]
        rw [if_neg h10, if_neg h8, if_pos h6]
      · by_cases h4 : ((cell.translated_text.getD "").length : ℚ) * 4 * (1 / 2) ≤
            cell.bbox.width - 4
        · simp only [List.find?, decide_eq_false h10, decide_eq_false h8,
            decide_eq_false h6, decide_eq_true h4]
          rw [if_neg h10, if_neg h8, if_neg h6]
        · simp only [List.find?, decide_eq_false h10, decide_eq_false h8,
            decide_eq_false h6, decide_eq_false h4]
          rw [if_neg h10, if_neg h8, if_neg h6]

/-! ## Document translator (`transmatrix/translation/document_translator.py`)

`DocumentTranslator` holds an abstract `Translator`; its `translate_batch`
method is modelled as a function `List String → Except ε (List String)` and
`B` is the batch size used for the chunk loop
(`translator.config.batch_size if hasattr(...) else 8`).  The in-place
assignments `span.translated_text = trans` / `cell.translated_text = trans`
(which pair the collected non-blank leaves with the translations positionally,
`zip`-style) become a rebuild of the tree that threads the translation list
through the leaves in traversal order. -/

def isBlankS (s : String) : Bool := isBlank s.data

/-- The generic chunk loop of `_translate_page_with_progress` /
`_translate_tables_with_progress`: `translate_batch` per chunk, extending the
accumulated list; an exception aborts the loop before any assignment. -/
def chunksTranslateS {ε : Type} (tr : List String → Except ε (List String)) :
    List (List String) → Except ε (List String)
  | [] => .ok []
  | c :: cs => do
    let r ← tr c
    let rest ← chunksTranslateS tr cs
    return r ++ rest

/-- The non-blank spans of a page in block → line → span order (the
`all_spans` list). -/
def pageSpans (page : Page) : List TextSpan :=
  ((page.text_blocks.map
    (fun b => (b.lines.map
      (fun l => l.spans.filter (fun s => !isBlankS s.text))).flatten)).flatten)

/-- The non-blank cells of a page in table order, cells in list order (the
`all_cells` list). -/
def pageCells (page : Page) : List TableCell :=
  (page.tables.map (fun t => t.cells.filter (fun c => !isBlankS c.text))).flatten

/-- `for span, trans in zip(all_spans, translated): span.translated_text =
trans`, restricted to one span list: each non-blank span takes the next
translation (while any remain), blanks are untouched. -/
def assignSpans : List TextSpan → List String → List TextSpan × List String
  | [], rs => ([], rs)
  | s :: ss, rs =>
    if isBlankS s.text then
      let p := assignSpans ss rs
      (s :: p.1, p.2)
    else
      match rs with
      | [] => (s :: (assignSpans ss []).1, [])
      | r :: rs' =>
        let p := assignSpans ss rs'
        ({ s with translated_text := some r } :: p.1, p.2)

def assignLines : List TextLine → List String → List TextLine × List String
  | [], rs => ([], rs)
  | l :: ls, rs =>
    let p := assignSpans l.spans rs
    let q := assignLines ls p.2
    ({ l with spans := p.1 } :: q.1, q.2)

def assignBlocks : List TextBlock → List String → List TextBlock × List String
  | [], rs => ([], rs)
  | b :: bs, rs =>
    let p := assignLines b.lines rs
    let q := assignBlocks bs p.2
    ({ b with lines := p.1 } :: q.1, q.2)

def assignCells : List TableCell → List String → List TableCell × List String
  | [], rs => ([], rs)
  | c :: cs, rs =>
    if isBlankS c.text then
      let p := assignCells cs rs
      (c :: p.1, p.2)
    else
      match rs with
      | [] => (c :: (assignCells cs []).1, [])
      | r :: rs' =>
        let p := assignCells cs rs'
        ({ c with translated_text := some r } :: p.1, p.2)

def assignTables : List Table → List String → List Table × List String
  | [], rs => ([], rs)
  | t :: ts, rs =>
    let p := assignCells t.cells rs
    let q := assignTables ts p.2
    ({ t with cells := p.1 } :: q.1, q.2)

/-- `DocumentTranslator._translate_page_with_progress`. -/
def DocumentTranslator.translate_page_with_progress {ε : Type} (B : Nat)
    (tr : List String → Except ε (List String)) (page : Page) :
    Except ε Page :=
  let texts := (pageSpans page).map (fun s => s.text)
  if texts.isEmpty then .ok page
  else
    (chunksTranslateS tr (chunksOf B texts)).map
      (fun translated =>
        { page with text_blocks := (assignBlocks page.text_blocks translated).1 })

/-- `DocumentTranslator._translate_tables_with_progress`. -/
def DocumentTranslator.translate_tables_with_progress {ε : Type} (B : Nat)
    (tr : List String → Except ε (List String)) (page : Page) :
    Except ε Page :=
  let texts := (pageCells page).map (fun c => c.text)
  if texts.isEmpty then .ok page
  else
    (chunksTranslateS tr (chunksOf B texts)).map
      (fun translated =>
        { page with tables := (assignTables page.tables translated).1 })

/-- The page loop of `DocumentTranslator.translate_document` (spans, then
tables when `translate_tables` is set; an exception propagates out). -/
def translatePages {ε : Type} (B : Nat)
    (tr : List String → Except ε (List String)) (tables_too : Bool) :
    List Page → Except ε (List Page)
  | [] => .ok []
  | p :: ps => do
    let p1 ← DocumentTranslator.translate_page_with_progress B tr p
    let p2 ←
      if tables_too then
        DocumentTranslator.translate_tables_with_progress B tr p1
      else .ok p1
    let rest ← translatePages B tr tables_too ps
    return p2 :: rest

/-- `DocumentTranslator.translate_document` (the returned document is the
argument, translated in place in Python). -/
def DocumentTranslator.translate_document {ε : Type} (B : Nat)
    (tr : List String → Except ε (List String)) (tables_too : Bool)
    (doc : Document) : Except ε Document :=
  (translatePages B tr tables_too doc.pages).map
    (fun ps => { doc with pages := ps })

/-! ### Frame property (claim C7) -/

/-- Erase the one field translation writes. -/
def stripSpan (s : TextSpan) : TextSpan := { s with translated_text := none }

def stripLine (l : TextLine) : TextLine := { l with spans := l.spans.map stripSpan }

def stripBlock (b : TextBlock) : TextBlock :=
  { b with lines := b.lines.map stripLine }

def stripCell (c : TableCell) : TableCell := { c with translated_text := none }

def stripTable (t : Table) : Table := { t with cells := t.cells.map stripCell }

def stripPage (p : Page) : Page :=
  { p with text_blocks := p.text_blocks.map stripBlock,
           tables := p.tables.map stripTable }

def stripDocument (d : Document) : Document :=
  { d with pages := d.pages.map stripPage }

theorem assignSpans_strip :
    ∀ (ss : List TextSpan) (rs : List String),
      (assignSpans ss rs).1.map stripSpan = ss.map stripSpan
  | [], _ => rfl
  | s :: ss, rs => by
    unfold assignSpans
    by_cases hb : isBlankS s.text
    · rw [if_pos hb]
      simp only [List.map_cons, assignSpans_strip ss rs]
    · rw [if_neg hb]
      match rs with
      | [] => simp only [List.map_cons, assignSpans_strip ss []]
      | r :: rs' =>
        simp only [List.map_cons, assignSpans_strip ss rs']
        rfl

theorem assignLines_strip :
    ∀ (ls : List TextLine) (rs : List String),
      (assignLines ls rs).1.map stripLine = ls.map stripLine
  | [], _ => rfl
  | l :: ls, rs => by
    unfold assignLines
    simp only [List.map_cons, assignLines_strip ls]
    congr 1
    unfold stripLine
    rw [assignSpans_strip]

theorem assignBlocks_strip :
    ∀ (bs : List TextBlock) (rs : List String),
      (assignBlocks bs rs).1.map stripBlock = bs.map stripBlock
  | [], _ => rfl
  | b :: bs, rs => by
    unfold assignBlocks
    simp only [List.map_cons, assignBlocks_strip bs]
    congr 1
    unfold stripBlock
    rw [assignLines_strip]

theorem assignCells_strip :
    ∀ (cs : List TableCell) (rs : List String),
      (assignCells cs rs).1.map stripCell = cs.map stripCell
  | [], _ => rfl
  | c :: cs, rs => by
    unfold assignCells
    by_cases hb : isBlankS c.text
    · rw [if_pos hb]
      simp only [List.map_cons, assignCells_strip cs rs]
    · rw [if_neg hb]
      match rs with
      | [] => simp only [List.map_cons, assignCells_strip cs []]
      | r :: rs' =>
        simp only [List.map_cons, assignCells_strip cs rs']
        rfl

theorem assignTables_strip :
    ∀ (ts : List Table) (rs : List String),
      (assignTables ts rs).1.map stripTable = ts.map stripTable
  | [], _ => rfl
  | t :: ts, rs => by
    unfold assignTables
    simp only [List.map_cons, assignTables_strip ts]
    congr 1
    unfold stripTable
    rw [assignCells_strip]

theorem translate_page_strip {ε : Type} {B : Nat}
    {tr : List String → Except ε (List String)} {page res : Page}
    (h : DocumentTranslator.translate_page_with_progress B tr page = .ok res) :
    stripPage res = stripPage page := by
  unfold DocumentTranslator.translate_page_with_progress at h
  by_cases he : ((pageSpans page).map (fun s => s.text)).isEmpty
  · rw [if_pos he] at h
    cases h
    rfl
  · rw [if_neg he] at h
    cases hct : chunksTranslateS tr
        (chunksOf B ((pageSpans page).map (fun s => s.text))) with
    | error e => rw [hct] at h; cases h
    | ok translated =>
      rw [hct] at h
      cases h
      unfold stripPage
      simp only
      congr 1
      rw [assignBlocks_strip]

theorem translate_tables_strip {ε : Type} {B : Nat}
    {tr : List String → Except ε (List String)} {page res : Page}
    (h : DocumentTranslator.translate_tables_with_progress B tr page = .ok res) :
    stripPage res = stripPage page := by
  unfold DocumentTranslator.translate_tables_with_progress at h
  by_cases he : ((pageCells page).map (fun c => c.text)).isEmpty
  · rw [if_pos he] at h
    cases h
    rfl
  · rw [if_neg he] at h
    cases hct : chunksTranslateS tr
        (chunksOf B ((pageCells page).map (fun c => c.text))) with
    | error e => rw [hct] at h; cases h
    | ok translated =>
      rw [hct] at h
      cases h
      unfold stripPage
      simp only
      congr 1
      rw [assignTables_strip]

theorem translatePages_strip {ε : Type} {B : Nat}
    {tr : List String → Except ε (List String)} {tt : Bool} :
    ∀ {ps ps' : List Page}, translatePages B tr tt ps = .ok ps' →
      ps'.map stripPage = ps.map stripPage
  | [], ps', h => by
    cases h
    rfl
  | p :: ps, ps', h => by
    unfold translatePages at h
    cases h1 : DocumentTranslator.translate_page_with_progress B tr p with
    | error e => rw [h1] at h; cases h
    | ok p1 =>
      rw [h1] at h
      have hp1 := translate_page_strip h1
      cases tt with
      | false =>
        replace h : (do
            let rest ← translatePages B tr false ps
            pure (p1 :: rest) : Except ε (List Page)) = Except.ok ps' := h
        cases h2 : translatePages B tr false ps with
        | error e => rw [h2] at h; cases h
        | ok rest =>
          rw [h2] at h
          replace h : (Except.ok (p1 :: rest) : Except ε (List Page)) =
            Except.ok ps' := h
          cases h
          simp only [List.map_cons, translatePages_strip h2, hp1]
      | true =>
        replace h : (do
            let p2 ← DocumentTranslator.translate_tables_with_progress B tr p1
            let rest ← translatePages B tr true ps
            pure (p2 :: rest) : Except ε (List Page)) = Except.ok ps' := h
        cases h2 : DocumentTranslator.translate_tables_with_progress B tr p1 with
        | error e => rw [h2] at h; cases h
        | ok p2 =>
          rw [h2] at h
          have hp2 := translate_tables_strip h2
          replace h : (do
              let rest ← translatePages B tr true ps
              pure (p2 :: rest) : Except ε (List Page)) = Except.ok ps' := h
          cases h3 : translatePages B tr true ps with
          | error e => rw [h3] at h; cases h
          | ok rest =>
            rw [h3] at h
            replace h : (Except.ok (p2 :: rest) : Except ε (List Page)) =
              Except.ok ps' := h
            cases h
            simp only [List.map_cons, translatePages_strip h3,
              hp2.trans hp1]

/-- **C7**: whatever the translator returns, a successful
`translate_document` changes at most the `translated_text` fields of span and
cell leaves: erasing those fields from the result gives back the erased
input, so `text`, `bbox`, `font`, `size`, `color`, `flags` and the whole
page/block/line/table structure are untouched; and the rebuilder is a pure
reader of the document — the document component of `rebuild_ops` is the
input itself, for every configuration. -/
theorem translate_document_frame {ε : Type} (B : Nat)
    (tr : List String → Except ε (List String)) (tt : Bool)
    (doc res : Document)
    (h : DocumentTranslator.translate_document B tr tt doc = .ok res) :
    stripDocument res = stripDocument doc ∧
    ∀ cfg : RebuilderConfig, (PDFRebuilder.rebuild_ops cfg doc).2 = doc := by
  refine ⟨?_, fun _ => rfl⟩
  unfold DocumentTranslator.translate_document at h
  cases hps : translatePages B tr tt doc.pages with
  | error e => rw [hps] at h; cases h
  | ok ps' =>
    rw [hps] at h
    cases h
    unfold stripDocument
    simp only
    congr 1
    exact translatePages_strip hps

/-- A one-page, one-span document (the spec's scenario input). -/
def demoSpan : TextSpan :=
  { text := "Hola", bbox := ⟨0, 0, 40, 10⟩, font := "Arial", size := 10,
    color := 0, flags := 0 }

def demoDoc : Document :=
  { filename := "demo.pdf",
    pages := [{ page_number := 1, width := 100, height := 100,
                text_blocks := [{ bbox := ⟨0, 0, 40, 10⟩,
                                  lines := [{ bbox := ⟨0, 0, 40, 10⟩,
                                              spans := [demoSpan] }] }] }] }

/-- `demoDoc` after pass-through translation: the span's `translated_text`
is set to its own text, nothing else changes. -/
def demoDocT : Document :=
  { filename := "demo.pdf",
    pages := [{ page_number := 1, width := 100, height := 100,
                text_blocks := [{ bbox := ⟨0, 0, 40, 10⟩,
                                  lines := [{ bbox := ⟨0, 0, 40, 10⟩,
                                              spans := [{ demoSpan with
                                                translated_text :=
                                                  some "Hola" }] }] }] }] }

/-- **C7** (witness): translating `demoDoc` with a pass-through batch
translator yields `demoDocT`, and the strip equation holds for it. -/
theorem translate_document_frame_witness :
    (DocumentTranslator.translate_document (ε := Unit) 8
        (fun l => .ok l) true demoDoc = .ok demoDocT ∧
      stripDocument demoDocT = stripDocument demoDoc) ∧
    (PDFRebuilder.rebuild_ops defaultRebuilderConfig demoDoc).2 = demoDoc := by
  refine ⟨⟨rfl, ?_⟩, ?_⟩
  · exact (translate_document_frame (ε := Unit) 8 (fun l => .ok l) true demoDoc
      demoDocT rfl).1
  · exact (translate_document_frame (ε := Unit) 8 (fun l => .ok l) true demoDoc
      demoDocT rfl).2 defaultRebuilderConfig

end TransMatrix
